import Mathlib

/-!
Verification of the 6016-app extraction-to-validated-model pipeline
(MIL-STD-6016 / MQTT standard-document processing).

The development shallowly embeds, in Lean 4:
  * the frontend helpers that are present as TypeScript source
    (`getBitRangeColor`, the bit-range records of
    `UnifiedProcessorInterface`, and the JSON fetch helpers of the two
    review apps), and
  * the core pipeline (Extraction Arbiter, Section Classifier, Field
    Normalizer, Semantic Model Builder, Validation Engine), whose
    implementation is documented in the repository guides but whose
    source is not part of the repository snapshot; those definitions are
    modelled from the specification and are marked as such.

Numbers that are `number` in TypeScript are embedded as `Int`;
confidence scores in [0.0, 1.0] are embedded as `ℚ`.
-/

namespace Spec2Proof

/-! ## Frontend: bit-range colouring and bit_range records
(src/unnamed/part_006, `UnifiedProcessorInterface.tsx`) -/

/-- Embeds `getBitRangeColor` (part_006 lines 425-431):
`const length = end - start + 1; if (length <= 8) return 'bg-blue-200'; ...`.
TypeScript `start`/`end` are numbers; the app only ever calls it on
integral bit positions, embedded as `Int`. `end` is a Lean keyword, so the
second parameter is named `stop`. -/
def getBitRangeColor (start stop : Int) : String :=
  let length := stop - start + 1
  if length ≤ 8 then "bg-blue-200"
  else if length ≤ 16 then "bg-green-200"
  else if length ≤ 32 then "bg-yellow-200"
  else "bg-red-200"

/-- The `bit_range` record of `FieldData` / `CustomField`
(part_006 lines 31-35, 59-63): `{ start: number; end: number; length: number }`. -/
structure BitRangeUI where
  start : Int
  stop : Int
  length : Int
  deriving Repr, DecidableEq

/-- The freshly-added custom field's bit range
(part_006 line 134): `bit_range: { start: 0, end: 15, length: 16 }`. -/
def defaultCustomBitRange : BitRangeUI :=
  { start := 0, stop := 15, length := 16 }

/-- Embeds the start-editing handler (part_006 lines 921-928): on a new
`start` value it stores `{ ...field.bit_range, start, length }` with
`length = field.bit_range.end - start + 1`. -/
def updateRangeStart (br : BitRangeUI) (s : Int) : BitRangeUI :=
  { br with start := s, length := br.stop - s + 1 }

/-- Embeds the end-editing handler (part_006 lines 936-943): on a new
`end` value it stores `{ ...field.bit_range, end, length }` with
`length = end - field.bit_range.start + 1`. -/
def updateRangeStop (br : BitRangeUI) (e : Int) : BitRangeUI :=
  { br with stop := e, length := e - br.start + 1 }

/-! ## Frontend: JSON fetch helpers
(src/unnamed/part_005 `fetchData`, src/frontend/src/App.tsx `j`) -/

/-- A JSON-like value tree; stands for the JavaScript values produced by
`response.json()` and for the serialized SIM documents described in the
repository guides. -/
inductive JVal where
  | null : JVal
  | bool : Bool → JVal
  | str : String → JVal
  | nat : Nat → JVal
  | rat : ℚ → JVal
  | arr : List JVal → JVal
  | obj : List (String × JVal) → JVal
  deriving Repr

/-- The observable outcome of `fetch`: the `ok` flag, the body text
(`response.text()`), and the value `response.json()` resolves to. -/
structure HttpResponse where
  ok : Bool
  bodyText : String
  jsonBody : JVal

/-- Embeds `fetchData` (part_005 lines 12-18): `const response = await
fetch(API + path); if (!response.ok) throw new Error(await
response.text()); return response.json();`.  The ambient `fetch` is
passed explicitly as a map from path to response; a thrown `Error` is
embedded as `Except.error` carrying the message. -/
def fetchData (fetched : String → HttpResponse) (path : String) :
    Except String JVal :=
  let response := fetched path
  if !response.ok then Except.error response.bodyText
  else Except.ok response.jsonBody

/-- Embeds `j` (frontend/src/App.tsx line 4): `const r = await
fetch(API+p); if(!r.ok) throw new Error(await r.text()); return
r.json();`. -/
def jFetch (fetched : String → HttpResponse) (p : String) :
    Except String JVal :=
  let r := fetched p
  if !r.ok then Except.error r.bodyText
  else Except.ok r.jsonBody

/-! ## Field Normalizer: bit-range parsing

The Field Normalizer's implementation is not part of the repository
snapshot (the guides document it under "数据标准化 / 位段归一"); the
definitions below are modelled from the specification. -/

/-- Modelled from the spec: surrounding-whitespace characters stripped
before bit-range parsing ("with or without surrounding whitespace"). -/
def isSpaceChar (c : Char) : Bool := c = ' ' || c = '\t'

/-- An ASCII decimal digit `'0'..'9'`, tested on code points 48-57. -/
def isDigitChar (c : Char) : Bool := 48 ≤ c.toNat && c.toNat ≤ 57

/-- Numeric value of an ASCII digit character. -/
def digitVal (c : Char) : Nat := c.toNat - 48

/-- Strip leading and trailing whitespace from a character list. -/
def trimChars (cs : List Char) : List Char :=
  ((cs.dropWhile isSpaceChar).reverse.dropWhile isSpaceChar).reverse

/-- Modelled from the spec: the bit-range grammar "accepts
representations using hyphen, en-dash, double-dot, or explicit to
separators between two non-negative integers".  Scans for the first
separator occurrence and splits the character list there; returns
`none` when no separator occurs (a single-value cell). -/
def splitRange : List Char → Option (List Char × List Char)
  | [] => none
  | c :: rest =>
    if c = '-' ∨ c = '–' then some ([], rest)
    else if c = '.' ∧ rest.head? = some '.' then some ([], rest.tail)
    else if c = 't' ∧ rest.head? = some 'o' then some ([], rest.tail)
    else (splitRange rest).map (fun p => (c :: p.1, p.2))

/-- A parsed inclusive bit range `{start, end}` (the spec's JSON field
`end` is a Lean keyword, embedded as `stop`). Invariant-free record;
the structural checker inspects it. -/
structure BitRange where
  start : Nat
  stop : Nat
  deriving Repr, DecidableEq

/-- Parse a non-empty all-digit character list as a decimal natural. -/
def parseNatChars (cs : List Char) : Option Nat :=
  if !cs.isEmpty && cs.all isDigitChar then
    some (cs.foldl (fun n c => 10 * n + digitVal c) 0)
  else none

/-- Modelled from the spec: bit-range parsing ("位段归一").  Trims the
cell, splits at the first separator and parses both sides as decimal
integers; a single-integer cell `n` denotes the one-bit field `{n, n}`;
anything else fails (`none`, the row is skipped). -/
def parseBitRange (s : String) : Option BitRange :=
  let cs := trimChars s.data
  match splitRange cs with
  | some (l, r) =>
    match parseNatChars (trimChars l), parseNatChars (trimChars r) with
    | some a, some b => some ⟨a, b⟩
    | _, _ => none
  | none => (parseNatChars cs).map (fun n => ⟨n, n⟩)

/-- The ASCII character of a decimal digit (values ≥ 9 all map to `'9'`,
only ever applied to digits). -/
def digitCharOf : Nat → Char
  | 0 => '0' | 1 => '1' | 2 => '2' | 3 => '3' | 4 => '4'
  | 5 => '5' | 6 => '6' | 7 => '7' | 8 => '8' | _ => '9'

/-- The decimal rendering of a natural number as a character list,
most-significant digit first (`Nat.digits` is little-endian). -/
def natChars (n : Nat) : List Char :=
  if n = 0 then ['0'] else ((Nat.digits 10 n).map digitCharOf).reverse

/-! ## Data model of the Semantic Intermediate Model (SIM)

Modelled from the spec (§3 DATA MODEL); the pipeline source is not in
the repository snapshot. -/

/-- Issue severity: `error` blocks downstream import, `warning` does not. -/
inductive Severity where
  | error : Severity
  | warning : Severity
  deriving Repr, DecidableEq

/-- Modelled from the spec: `ValidationIssue = {severity, rule_id,
target_path, message, suggested_fix?}`; `refs` carries the names of the
offending fields ("errors with both offending field names"). -/
structure ValidationIssue where
  severity : Severity
  ruleId : String
  targetPath : String
  message : String
  refs : List String
  deriving Repr, DecidableEq

/-- Inferred data encoding of a field
(integer | enum | string | variable-length | binary). -/
inductive Encoding where
  | integer : Encoding
  | enum : Encoding
  | text : Encoding
  | varLen : Encoding
  | binary : Encoding
  deriving Repr, DecidableEq

/-- Modelled from the spec: a normalized FieldRecord — name, inclusive
0-based bit-range, encoding, optional unit, description, extraction
confidence in [0, 1] (embedded as `ℚ`). -/
structure FieldRecord where
  name : String
  bits : BitRange
  encoding : Encoding
  unit : Option String
  description : String
  confidence : ℚ
  deriving Repr, DecidableEq

/-- Modelled from the spec: a Segment ("word") — an ordered group of
FieldRecords in a container of `bitLen` bits. -/
structure Segment where
  segType : String
  bitLen : Nat
  fields : List FieldRecord
  deriving Repr, DecidableEq

/-- Modelled from the spec: a Message — an ordered list of Segments. -/
structure Message where
  label : String
  segments : List Segment
  deriving Repr, DecidableEq

/-- Modelled from the spec: a DictionaryEntry — a hierarchical
identifier triple (DFI, DUI, DI) with a name and an optional parent
reference (another entry's triple). -/
structure DictionaryEntry where
  cat : Nat
  subCat : Nat
  item : Nat
  name : String
  parent : Option (Nat × Nat × Nat)
  deriving Repr, DecidableEq

/-- An enumeration definition referenced by enum-typed fields. -/
structure EnumDefinition where
  name : String
  values : List String
  deriving Repr, DecidableEq

/-- A unit definition referenced by `FieldRecord.unit`. -/
structure UnitDefinition where
  symbol : String
  deriving Repr, DecidableEq

/-- The document's transport unit: bit-based or byte-based. -/
inductive TransportUnit where
  | bit : TransportUnit
  | byte : TransportUnit
  deriving Repr, DecidableEq

/-- Modelled from the spec: the root aggregate — document metadata,
ordered Messages, the dictionary forest and the enum/unit tables. -/
structure SemanticModel where
  standard : String
  edition : String
  transportUnit : TransportUnit
  messages : List Message
  dictionary : List DictionaryEntry
  enums : List EnumDefinition
  units : List UnitDefinition
  deriving Repr, DecidableEq

/-! ## Validation Engine

Modelled from the spec (§4.5): independent checkers over a read-only
SIM producing a list of `ValidationIssue`. -/

/-- Two inclusive bit-ranges overlap (share at least one bit). -/
def rangesOverlap (f g : FieldRecord) : Bool :=
  f.bits.start ≤ g.bits.stop && g.bits.start ≤ f.bits.stop

/-- The error issue for one overlapping pair, citing both field names. -/
def overlapIssue (path : String) (f g : FieldRecord) : ValidationIssue :=
  { severity := Severity.error, ruleId := "bit-overlap", targetPath := path,
    message := "overlapping bit ranges", refs := [f.name, g.name] }

/-- All overlapping pairs among a segment's fields, one error each. -/
def overlapIssues (path : String) : List FieldRecord → List ValidationIssue
  | [] => []
  | f :: rest =>
    (rest.filter (fun g => rangesOverlap f g)).map (overlapIssue path f)
      ++ overlapIssues path rest

/-- Fields whose range exceeds the segment's declared bit-length. -/
def oobIssues (path : String) (bitLen : Nat) (fields : List FieldRecord) :
    List ValidationIssue :=
  (fields.filter (fun f => bitLen ≤ f.bits.stop)).map (fun f =>
    { severity := Severity.error, ruleId := "bit-out-of-bounds", targetPath := path,
      message := "field range exceeds segment bit length", refs := [f.name] })

/-- Bit `b` is covered by some field of the list. -/
def coveredBit (fields : List FieldRecord) (b : Nat) : Bool :=
  fields.any (fun f => f.bits.start ≤ b && b ≤ f.bits.stop)

/-- The bits of the segment's container covered by no field. -/
def uncoveredBits (seg : Segment) : List Nat :=
  (List.range seg.bitLen).filter (fun b => !coveredBit seg.fields b)

/-- Under-covered ranges (unused bits) are reported as warnings. -/
def coverageIssues (path : String) (seg : Segment) : List ValidationIssue :=
  if uncoveredBits seg = [] then []
  else
    [{ severity := Severity.warning, ruleId := "under-coverage", targetPath := path,
       message := "unused bits in segment", refs := [] }]

/-- Modelled from the spec: the structural check of one segment —
overlaps and out-of-bounds ranges as errors, under-coverage as a
warning. -/
def checkStructural (path : String) (seg : Segment) : List ValidationIssue :=
  overlapIssues path seg.fields ++ oobIssues path seg.bitLen seg.fields
    ++ coverageIssues path seg

/-- Duplicate (DFI, DUI, DI) triples in the dictionary, errors. -/
def dictDuplicateIssues : List DictionaryEntry → List ValidationIssue
  | [] => []
  | e :: rest =>
    (rest.filter (fun x => x.cat == e.cat && x.subCat == e.subCat && x.item == e.item)).map
      (fun x =>
        { severity := Severity.error, ruleId := "dict-duplicate", targetPath := "dictionary",
          message := "duplicate dictionary triple", refs := [e.name, x.name] })
      ++ dictDuplicateIssues rest

/-- Dangling parent references in the dictionary forest, errors. -/
def dictParentIssues (entries : List DictionaryEntry) : List ValidationIssue :=
  (entries.filter (fun e =>
    match e.parent with
    | none => false
    | some p => !(entries.any (fun x => (x.cat, x.subCat, x.item) == p)))).map
    (fun e =>
      { severity := Severity.error, ruleId := "dict-dangling-parent",
        targetPath := "dictionary", message := "parent reference does not resolve",
        refs := [e.name] })

/-- Modelled from the spec: the dictionary-tree check. -/
def dictIssues (m : SemanticModel) : List ValidationIssue :=
  dictDuplicateIssues m.dictionary ++ dictParentIssues m.dictionary

/-- All FieldRecords of a model, in model order. -/
def allModelFields (m : SemanticModel) : List FieldRecord :=
  m.messages.flatMap (fun msg => msg.segments.flatMap (fun sg => sg.fields))

/-- Modelled from the spec: the unit-consistency check — units that
resolve to no UnitDefinition are flagged unresolved (warning); enum
fields without a non-empty EnumDefinition are flagged incomplete
(warning). -/
def unitIssues (m : SemanticModel) : List ValidationIssue :=
  (allModelFields m).flatMap (fun f =>
    (match f.unit with
     | none => []
     | some u =>
       if m.units.any (fun d => d.symbol == u) then []
       else
         [{ severity := Severity.warning, ruleId := "unresolved-unit",
            targetPath := f.name, message := "unit does not resolve", refs := [f.name] }])
      ++
      (if f.encoding == Encoding.enum
          && !(m.enums.any (fun e => e.name == f.name && !e.values.isEmpty)) then
        [{ severity := Severity.warning, ruleId := "enum-incomplete",
           targetPath := f.name, message := "enum field without enum values",
           refs := [f.name] }]
      else []))

/-- The structural check over every segment of every message. -/
def structuralIssues (m : SemanticModel) : List ValidationIssue :=
  m.messages.flatMap (fun msg => msg.segments.flatMap (checkStructural msg.label))

/-- All checkers' findings, concatenated (each checker always runs). -/
def validateModel (m : SemanticModel) : List ValidationIssue :=
  structuralIssues m ++ dictIssues m ++ unitIssues m

/-- Modelled from the spec: the Validation Engine — takes the completed
SIM, returns it untouched together with the ordered issue list. -/
def validate (m : SemanticModel) : SemanticModel × List ValidationIssue :=
  (m, validateModel m)

/-! ## Extraction Arbiter

Modelled from the spec (§4.1): deterministic selection between two
table candidates; the scoring function's output is carried on the
candidate. -/

/-- A candidate table: extraction-method tag, grid of cells, and the
confidence score the Arbiter's scoring function assigned to it. -/
structure TableCandidate where
  method : String
  rows : List (List String)
  score : ℚ
  deriving Repr, DecidableEq

/-- Number of non-empty cells (the geometric-density tiebreak). -/
def nonEmptyCells (t : TableCandidate) : Nat :=
  (t.rows.map (fun row => (row.filter (fun c => c != "")).length)).sum

/-- Modelled from the spec: select the higher-scoring candidate; ties
prefer the denser extraction (more non-empty cells). -/
def selectCandidate (a b : TableCandidate) : TableCandidate :=
  if b.score < a.score then a
  else if a.score < b.score then b
  else if nonEmptyCells b < nonEmptyCells a then a
  else b

/-- Modelled from the spec: arbitration over possibly-absent candidates
with a minimum-acceptance threshold; a region whose winner scores below
the threshold has no usable table (a coverage gap, not a crash). -/
def arbitrate (a b : Option TableCandidate) (threshold : ℚ) :
    Option TableCandidate :=
  match a, b with
  | none, none => none
  | some x, none => if x.score < threshold then none else some x
  | none, some y => if y.score < threshold then none else some y
  | some x, some y =>
    let w := selectCandidate x y
    if w.score < threshold then none else some w

/-! ## Section Classifier

Modelled from the spec (§4.2): ordered label-recognition rules over
page headings; a section runs from a matching page to the page before
the next matching page; adjacent pages matching the same label extend
the current section. -/

/-- The kind of a classified section. -/
inductive SectionKind where
  | message : SectionKind
  | dictionary : SectionKind
  | appendix : SectionKind
  | other : SectionKind
  deriving Repr, DecidableEq

/-- A labeled span of pages produced by the Section Classifier. -/
structure DocSection where
  kind : SectionKind
  label : String
  firstPage : Nat
  lastPage : Nat
  deriving Repr, DecidableEq

/-- Page `p` lies inside section `s` (inclusive page range). -/
def pageInSection (s : DocSection) (p : Nat) : Prop :=
  s.firstPage ≤ p ∧ p ≤ s.lastPage

instance (s : DocSection) (p : Nat) : Decidable (pageInSection s p) := by
  unfold pageInSection
  infer_instance

/-- The pages whose heading matches a recognition rule ("first match
wins" is resolved inside `recognize`), with their kind and label. -/
def pageBoundaries (recognize : String → Option (SectionKind × String))
    (pages : List String) : List (Nat × SectionKind × String) :=
  pages.enum.filterMap (fun p => (recognize p.2).map (fun r => (p.1, r)))

/-- Build sections from the boundary list: the current section started
at `start`, its latest matching page is `runEnd`; a boundary on the very
next page with the same kind and label extends the current section,
any other boundary closes it. -/
def buildSections (n : Nat) (start runEnd : Nat) (k : SectionKind) (L : String) :
    List (Nat × SectionKind × String) → List DocSection
  | [] => [{ kind := k, label := L, firstPage := start, lastPage := n - 1 }]
  | (j, k2, M) :: rest =>
    if j = runEnd + 1 ∧ k = k2 ∧ L = M then
      buildSections n start j k L rest
    else
      { kind := k, label := L, firstPage := start, lastPage := j - 1 }
        :: buildSections n j j k2 M rest

/-- Modelled from the spec: the Section Classifier — pages matching no
rule are left unassigned (pages before the first boundary belong to no
section; a document with no matching page yields no sections). -/
def classifySections (recognize : String → Option (SectionKind × String))
    (pages : List String) : List DocSection :=
  match pageBoundaries recognize pages with
  | [] => []
  | (i, k, L) :: rest => buildSections pages.length i i k L rest

/-- Modelled from the spec / guide ("J系列识别: 正则匹配 ^J\d+(\.\d+)?"):
the default recognition rule — a heading starting with `J` followed by a
digit opens a message section. -/
def defaultRecognize (h : String) : Option (SectionKind × String) :=
  match h.data with
  | 'J' :: c :: _ => if isDigitChar c then some (SectionKind.message, h) else none
  | _ => none

/-! ## Field Normalizer (rows) and Semantic Model Builder

Modelled from the spec (§4.3, §4.4). -/

/-- Modelled from the spec: the fixed unit-normalization table mapping
known unit-token variants to a canonical symbol. -/
def unitTable : List (String × String) :=
  [("deg", "degree"), ("degree", "degree"), ("rad", "radian"),
   ("radian", "radian"), ("ft", "foot"), ("feet", "foot"), ("foot", "foot"),
   ("m", "metre"), ("metre", "metre"), ("kts", "knot"), ("knot", "knot"),
   ("m/s", "metre-per-second")]

/-- Canonicalize a unit token; unrecognized tokens are kept verbatim
(flagged unresolved later, a warning not an error). -/
def normalizeUnit (u : String) : String :=
  match unitTable.lookup u with
  | some c => c
  | none => u

/-- Modelled from the spec: normalize one data row
(name | bit-range | unit | description columns); rows failing to yield
a parseable name and bit-range are reported as skipped with a reason. -/
def normalizeRow (conf : ℚ) (row : List String) : Except String FieldRecord :=
  match row with
  | name :: bitsCell :: unitCell :: descCell :: _ =>
    if name = "" then Except.error "row skipped: missing field name"
    else
      match parseBitRange bitsCell with
      | some r =>
        Except.ok
          { name := name, bits := r, encoding := Encoding.integer,
            unit := if unitCell = "" then none else some (normalizeUnit unitCell),
            description := descCell, confidence := conf }
      | none => Except.error "row skipped: unparseable bit range"
  | _ => Except.error "row skipped: too few columns"

/-- Normalize every data row (post header) of a selected table:
the field records produced, plus one skip reason per failed row. -/
def normalizeTable (t : TableCandidate) : List FieldRecord × List String :=
  (t.rows.drop 1).foldr
    (fun row acc =>
      match normalizeRow t.score row with
      | Except.ok f => (f :: acc.1, acc.2)
      | Except.error e => (acc.1, e :: acc.2))
    ([], [])

/-- The successful fields and skip reasons over a list of selected
(possibly absent) tables. -/
def tablesFields : List (Option TableCandidate) → List FieldRecord × List String
  | [] => ([], [])
  | none :: rest => tablesFields rest
  | some t :: rest =>
    let n := normalizeTable t
    let r := tablesFields rest
    (n.1 ++ r.1, n.2 ++ r.2)

/-- Segment bit-length assigned by the builder: the maximum end-bit
among the fields, plus one (no fixed container size declared). -/
def fieldsBitLen (fields : List FieldRecord) : Nat :=
  fields.foldr (fun f m => max (f.bits.stop + 1) m) 0

/-- Modelled from the spec: group a section's fields into one segment
(no segment-boundary markers in the embedded row format). -/
def segmentOfFields (fields : List FieldRecord) : Segment :=
  { segType := "Initial", bitLen := fieldsBitLen fields, fields := fields }

/-- One source page: heading text plus the two extractors' candidates. -/
structure DocPage where
  heading : String
  candA : Option TableCandidate
  candB : Option TableCandidate
  deriving Repr

/-- The source document handed to the pipeline. -/
structure Document where
  standard : String
  edition : String
  transportUnit : TransportUnit
  pages : List DocPage
  deriving Repr

/-- The selected tables of the pages in a section's page range. -/
def sectionTables (s : DocSection) (selected : List (Option TableCandidate)) :
    List (Option TableCandidate) :=
  (selected.drop s.firstPage).take (s.lastPage + 1 - s.firstPage)

/-- Build one message (label, one segment when any field exists) and
collect row-skip reasons for a message-kind section. -/
def buildMessage (s : DocSection) (selected : List (Option TableCandidate)) :
    Message × List String :=
  let nf := tablesFields (sectionTables s selected)
  ({ label := s.label,
     segments := if nf.1.isEmpty then [] else [segmentOfFields nf.1] }, nf.2)

/-- The warning recorded for a page region without a usable table. -/
def coverageGapIssue : ValidationIssue :=
  { severity := Severity.warning, ruleId := "coverage-gap", targetPath := "pages",
    message := "no usable table for region", refs := [] }

/-- One coverage-gap warning per page region without a usable table. -/
def coverageGapIssues (selected : List (Option TableCandidate)) :
    List ValidationIssue :=
  (selected.filter (fun t => t.isNone)).map (fun _ => coverageGapIssue)

/-- One row-skip warning per skipped row. -/
def rowSkipIssues (reasons : List String) : List ValidationIssue :=
  reasons.map (fun e =>
    { severity := Severity.warning, ruleId := "row-skip", targetPath := "rows",
      message := e, refs := [] })

/-- Modelled from the spec: assemble the SIM and the full issue list
for a document — arbitrate every page, classify sections, normalize
rows, build messages, then run validation; all document-quality
problems become issues, never failures. -/
def buildFromDoc (doc : Document) (threshold : ℚ) :
    SemanticModel × List ValidationIssue :=
  let selected := doc.pages.map (fun p => arbitrate p.candA p.candB threshold)
  let sections := classifySections defaultRecognize (doc.pages.map (fun p => p.heading))
  let built := (sections.filter (fun s => s.kind == SectionKind.message)).map
    (fun s => buildMessage s selected)
  let m : SemanticModel :=
    { standard := doc.standard, edition := doc.edition,
      transportUnit := doc.transportUnit, messages := built.map (fun x => x.1),
      dictionary := [], enums := [], units := [] }
  (m, coverageGapIssues selected ++ rowSkipIssues (built.flatMap (fun x => x.2))
    ++ validateModel m)

/-- Modelled from the spec: the single entry point
`build(document) -> (SemanticModel, ValidationIssue[])`. Only
programmer-error input (a null document) produces a hard failure. -/
def build (input : Option Document) (threshold : ℚ) :
    Except String (SemanticModel × List ValidationIssue) :=
  match input with
  | none => Except.error "programmer error: null document"
  | some doc => Except.ok (buildFromDoc doc threshold)

/-! ## Serialized SIM format

Modelled from the spec (§6 EXTERNAL INTERFACES): serialization of a
`SemanticModel` to a JSON-like document and the inverse parser. -/

/-- Parse every element of a serialized array, failing if any element
fails. -/
def parseList {α : Type} (par : JVal → Option α) : List JVal → Option (List α)
  | [] => some []
  | j :: rest =>
    match par j, parseList par rest with
    | some x, some xs => some (x :: xs)
    | _, _ => none

/-- Spelling of an encoding in the serialized format. -/
def encodingToStr : Encoding → String
  | Encoding.integer => "integer"
  | Encoding.enum => "enum"
  | Encoding.text => "string"
  | Encoding.varLen => "variable-length"
  | Encoding.binary => "binary"

/-- Inverse of `encodingToStr`. -/
def strToEncoding : String → Option Encoding
  | "integer" => some Encoding.integer
  | "enum" => some Encoding.enum
  | "string" => some Encoding.text
  | "variable-length" => some Encoding.varLen
  | "binary" => some Encoding.binary
  | _ => none

/-- Spelling of the transport unit in the serialized format. -/
def transportUnitToStr : TransportUnit → String
  | TransportUnit.bit => "bit"
  | TransportUnit.byte => "byte"

/-- Inverse of `transportUnitToStr`. -/
def strToTransportUnit : String → Option TransportUnit
  | "bit" => some TransportUnit.bit
  | "byte" => some TransportUnit.byte
  | _ => none

/-- Serialize one field: name, bit range, encoding, optional units,
description, confidence. -/
def serializeField (f : FieldRecord) : JVal :=
  JVal.obj [("name", JVal.str f.name), ("start", JVal.nat f.bits.start),
    ("end", JVal.nat f.bits.stop),
    ("encoding", JVal.str (encodingToStr f.encoding)),
    ("units", match f.unit with | some u => JVal.str u | none => JVal.null),
    ("description", JVal.str f.description), ("confidence", JVal.rat f.confidence)]

/-- Parse one serialized field. -/
def parseField : JVal → Option FieldRecord
  | JVal.obj [("name", JVal.str n), ("start", JVal.nat s), ("end", JVal.nat e),
      ("encoding", JVal.str enc), ("units", u), ("description", JVal.str d),
      ("confidence", JVal.rat c)] =>
    match strToEncoding enc, u with
    | some ev, JVal.null => some ⟨n, ⟨s, e⟩, ev, none, d, c⟩
    | some ev, JVal.str us => some ⟨n, ⟨s, e⟩, ev, some us, d, c⟩
    | _, _ => none
  | _ => none

/-- Serialize one segment: type, bit length and fields. -/
def serializeSegment (sg : Segment) : JVal :=
  JVal.obj [("type", JVal.str sg.segType), ("bit_length", JVal.nat sg.bitLen),
    ("fields", JVal.arr (sg.fields.map serializeField))]

/-- Parse one serialized segment. -/
def parseSegment : JVal → Option Segment
  | JVal.obj [("type", JVal.str t), ("bit_length", JVal.nat L),
      ("fields", JVal.arr fs)] =>
    (parseList parseField fs).map (fun fl => ⟨t, L, fl⟩)
  | _ => none

/-- Serialize one message: label and segments. -/
def serializeMessage (msg : Message) : JVal :=
  JVal.obj [("label", JVal.str msg.label),
    ("segments", JVal.arr (msg.segments.map serializeSegment))]

/-- Parse one serialized message. -/
def parseMessage : JVal → Option Message
  | JVal.obj [("label", JVal.str L), ("segments", JVal.arr sgs)] =>
    (parseList parseSegment sgs).map (fun sl => ⟨L, sl⟩)
  | _ => none

/-- Serialize one dictionary entry. -/
def serializeDictEntry (e : DictionaryEntry) : JVal :=
  JVal.obj [("dfi", JVal.nat e.cat), ("dui", JVal.nat e.subCat),
    ("di", JVal.nat e.item), ("name", JVal.str e.name),
    ("parent",
      match e.parent with
      | some p => JVal.arr [JVal.nat p.1, JVal.nat p.2.1, JVal.nat p.2.2]
      | none => JVal.null)]

/-- Parse one serialized dictionary entry. -/
def parseDictEntry : JVal → Option DictionaryEntry
  | JVal.obj [("dfi", JVal.nat a), ("dui", JVal.nat b), ("di", JVal.nat c),
      ("name", JVal.str n), ("parent", p)] =>
    match p with
    | JVal.null => some ⟨a, b, c, n, none⟩
    | JVal.arr [JVal.nat x, JVal.nat y, JVal.nat z] => some ⟨a, b, c, n, some (x, y, z)⟩
    | _ => none
  | _ => none

/-- Parse a serialized plain string. -/
def parseStr : JVal → Option String
  | JVal.str s => some s
  | _ => none

/-- Serialize one enum definition. -/
def serializeEnumDef (e : EnumDefinition) : JVal :=
  JVal.obj [("name", JVal.str e.name),
    ("values", JVal.arr (e.values.map JVal.str))]

/-- Parse one serialized enum definition. -/
def parseEnumDef : JVal → Option EnumDefinition
  | JVal.obj [("name", JVal.str n), ("values", JVal.arr vs)] =>
    (parseList parseStr vs).map (fun vl => ⟨n, vl⟩)
  | _ => none

/-- Serialize one unit definition. -/
def serializeUnitDef (u : UnitDefinition) : JVal :=
  JVal.obj [("symbol", JVal.str u.symbol)]

/-- Parse one serialized unit definition. -/
def parseUnitDef : JVal → Option UnitDefinition
  | JVal.obj [("symbol", JVal.str s)] => some ⟨s⟩
  | _ => none

/-- Modelled from the spec: the serialized SIM — top-level `standard`,
`edition`, `transport_unit`, `messages[]`, `dictionary`, `enums`,
`units`. -/
def serializeModel (m : SemanticModel) : JVal :=
  JVal.obj [("standard", JVal.str m.standard), ("edition", JVal.str m.edition),
    ("transport_unit", JVal.str (transportUnitToStr m.transportUnit)),
    ("messages", JVal.arr (m.messages.map serializeMessage)),
    ("dictionary", JVal.arr (m.dictionary.map serializeDictEntry)),
    ("enums", JVal.arr (m.enums.map serializeEnumDef)),
    ("units", JVal.arr (m.units.map serializeUnitDef))]

/-- Parse a serialized SIM document back into a `SemanticModel`. -/
def parseModel : JVal → Option SemanticModel
  | JVal.obj [("standard", JVal.str sd), ("edition", JVal.str ed),
      ("transport_unit", JVal.str tu), ("messages", JVal.arr ms),
      ("dictionary", JVal.arr ds), ("enums", JVal.arr es),
      ("units", JVal.arr us)] =>
    match strToTransportUnit tu, parseList parseMessage ms, parseList parseDictEntry ds,
        parseList parseEnumDef es, parseList parseUnitDef us with
    | some t, some ml, some dl, some el, some ul => some ⟨sd, ed, t, ml, dl, el, ul⟩
    | _, _, _, _, _ => none
  | _ => none

/-! ## The serialized SIM documents of the repository guides

Embedded verbatim from the sources: the MIL-STD-6016 serialized SIM of
PDF_PROCESSING_GUIDE.md ("中间语义模型(SIM)", lines 103-135; the
`dfi_dui_di`, `enums` and `units` collections are elided `[...]` there)
and the MQTT serialized SIM of MQTT_PIPELINE_GUIDE.md
("中间语义模型结构", lines 142-154; `enums` elided, field lists elided).
The frontend consumes exactly these key names
(`result.data.sim.j_messages`, `result.data.sim.dfi_dui_di`,
src/unnamed/part_006 lines 591 and 597). -/

/-- The example field of the guide's 6016 serialized SIM. -/
def pdfGuideField : JVal :=
  JVal.obj [("name", JVal.str "Weapon Status"),
    ("bits", JVal.arr [JVal.nat 0, JVal.nat 5]),
    ("map", JVal.obj [("nullable", JVal.bool false),
      ("description", JVal.str "Current weapon status"),
      ("units", JVal.arr [JVal.str "enum"])])]

/-- The example word of the guide's 6016 serialized SIM. -/
def pdfGuideWord : JVal :=
  JVal.obj [("type", JVal.str "Initial"), ("word_idx", JVal.nat 0),
    ("bitlen", JVal.nat 70), ("fields", JVal.arr [pdfGuideField])]

/-- The example message of the guide's 6016 serialized SIM. -/
def pdfGuideMessage : JVal :=
  JVal.obj [("label", JVal.str "J10.2"), ("title", JVal.str "Weapon Status"),
    ("words", JVal.arr [pdfGuideWord])]

/-- The 6016 serialized SIM as documented by PDF_PROCESSING_GUIDE.md. -/
def pdfGuideSim : JVal :=
  JVal.obj [("standard", JVal.str "MIL-STD-6016"), ("edition", JVal.str "B"),
    ("j_messages", JVal.arr [pdfGuideMessage]),
    ("dfi_dui_di", JVal.arr []), ("enums", JVal.arr []), ("units", JVal.arr [])]

/-- The example CONNECT message of the guide's MQTT serialized SIM. -/
def mqttGuideMessage : JVal :=
  JVal.obj [("label", JVal.str "CONNECT"),
    ("segments", JVal.arr
      [JVal.obj [("type", JVal.str "Fixed Header"), ("fields", JVal.arr [])],
       JVal.obj [("type", JVal.str "Variable Header"), ("fields", JVal.arr [])]])]

/-- The MQTT serialized SIM as documented by MQTT_PIPELINE_GUIDE.md. -/
def mqttGuideSim : JVal :=
  JVal.obj [("standard", JVal.str "OASIS MQTT"), ("edition", JVal.str "5.0"),
    ("transport_unit", JVal.str "byte"), ("enums", JVal.arr []),
    ("spec_messages", JVal.arr [mqttGuideMessage])]

/-- The top-level keys of a serialized document. -/
def topLevelKeys : JVal → List String
  | JVal.obj kvs => kvs.map (fun kv => kv.1)
  | _ => []

/-- Test fixture: the "0-7" row of end-to-end scenario 2. -/
def fieldA : FieldRecord :=
  { name := "FieldA", bits := { start := 0, stop := 7 },
    encoding := Encoding.integer, unit := none, description := "first row",
    confidence := 1 }

/-- Test fixture: the "5-10" row of end-to-end scenario 2. -/
def fieldB : FieldRecord :=
  { name := "FieldB", bits := { start := 5, stop := 10 },
    encoding := Encoding.integer, unit := none, description := "second row",
    confidence := 1 }

/-- Test fixture: a segment containing exactly the two overlapping rows. -/
def segAB : Segment := { segType := "Initial", bitLen := 16, fields := [fieldA, fieldB] }

/-- Test fixture: a one-message model around `segAB`. -/
def modelAB : SemanticModel :=
  { standard := "MIL-STD-6016", edition := "B", transportUnit := TransportUnit.bit,
    messages := [{ label := "J1", segments := [segAB] }],
    dictionary := [], enums := [], units := [] }

/-- Test fixture: a field with an unresolvable unit token. -/
def fieldU : FieldRecord :=
  { name := "Altitude", bits := { start := 0, stop := 15 },
    encoding := Encoding.integer, unit := some "furlong",
    description := "altitude", confidence := 1 }

/-- Test fixture: a segment holding only the unresolved-unit field. -/
def segU : Segment := { segType := "Initial", bitLen := 16, fields := [fieldU] }

/-- Test fixture: a model whose only field has an unresolved unit. -/
def modelU : SemanticModel :=
  { standard := "MIL-STD-6016", edition := "B", transportUnit := TransportUnit.bit,
    messages := [{ label := "J2", segments := [segU] }],
    dictionary := [], enums := [], units := [] }

/-- Test fixture: a one-page document whose page yields no usable
table (zero extractable fields). -/
def docNoTables : Document :=
  { standard := "MIL-STD-6016", edition := "B",
    transportUnit := TransportUnit.bit,
    pages := [{ heading := "J10.2", candA := none, candB := none }] }

/-! ### Theorems for C9 and C10 -/

/-- C9: `getBitRangeColor` treats the bit range as inclusive of both
endpoints: it returns `bg-blue-200` exactly when `end - start + 1 ≤ 8`,
`bg-green-200` exactly when `8 < end - start + 1 ≤ 16`, `bg-yellow-200`
exactly when `16 < end - start + 1 ≤ 32`, and `bg-red-200` otherwise;
and the `bit_range` records carried through the UI keep
`length = end - start + 1` (their initial value and both editing
handlers maintain it). -/
theorem getBitRangeColor_inclusive_length (s e : Int) :
    (getBitRangeColor s e = "bg-blue-200" ↔ e - s + 1 ≤ 8) ∧
    (getBitRangeColor s e = "bg-green-200" ↔ 8 < e - s + 1 ∧ e - s + 1 ≤ 16) ∧
    (getBitRangeColor s e = "bg-yellow-200" ↔ 16 < e - s + 1 ∧ e - s + 1 ≤ 32) ∧
    (getBitRangeColor s e = "bg-red-200" ↔ 32 < e - s + 1) ∧
    defaultCustomBitRange.length
      = defaultCustomBitRange.stop - defaultCustomBitRange.start + 1 ∧
    (∀ br a, (updateRangeStart br a).length
      = (updateRangeStart br a).stop - (updateRangeStart br a).start + 1) ∧
    (∀ br b, (updateRangeStop br b).length
      = (updateRangeStop br b).stop - (updateRangeStop br b).start + 1) := by
  refine ⟨?_, ?_, ?_, ?_, by decide, fun br a => rfl, fun br b => rfl⟩ <;>
    · unfold getBitRangeColor
      dsimp only
      split <;> try split <;> try split
      all_goals simp_all [String.ext_iff]
      all_goals omega

/-- C10: the frontend JSON fetch helpers never return a value for a
failed HTTP response: for every path, `fetchData` (and the equivalent
helper `j`) returns the parsed JSON body when the response has
`ok = true`, and otherwise throws an `Error` whose message is the
response body text. -/
theorem fetchData_ok_iff (fetched : String → HttpResponse) (path : String) :
    ((fetched path).ok = true →
      fetchData fetched path = Except.ok (fetched path).jsonBody) ∧
    ((fetched path).ok = false →
      fetchData fetched path = Except.error (fetched path).bodyText) ∧
    ((fetched path).ok = true →
      jFetch fetched path = Except.ok (fetched path).jsonBody) ∧
    ((fetched path).ok = false →
      jFetch fetched path = Except.error (fetched path).bodyText) := by
  refine ⟨fun h => ?_, fun h => ?_, fun h => ?_, fun h => ?_⟩ <;>
    simp [fetchData, jFetch, h]

/-- Witness for C10 at a concrete environment: one path answers `ok` with
a JSON body, the failing branch is exercised by a response with
`ok = false`. -/
theorem fetchData_ok_iff_witness :
    fetchData (fun _ => ⟨true, "body", JVal.str "v"⟩) "/api/review/top"
        = Except.ok (JVal.str "v") ∧
    fetchData (fun _ => ⟨false, "boom", JVal.null⟩) "/api/compare"
        = Except.error "boom" :=
  ⟨(fetchData_ok_iff (fun _ => ⟨true, "body", JVal.str "v"⟩)
      "/api/review/top").1 rfl,
   (fetchData_ok_iff (fun _ => ⟨false, "boom", JVal.null⟩)
      "/api/compare").2.1 rfl⟩

/-! ### Theorems for C2 (bit-range grammar) -/

theorem digit_not_special {c : Char} (h : isDigitChar c = true) :
    c ≠ '-' ∧ c ≠ '–' ∧ c ≠ '.' ∧ c ≠ 't' ∧ isSpaceChar c = false := by
  have h1 : c ≠ ' ' := by rintro rfl; exact absurd h (by decide)
  have h2 : c ≠ '\t' := by rintro rfl; exact absurd h (by decide)
  refine ⟨?_, ?_, ?_, ?_, by simp [isSpaceChar, h1, h2]⟩ <;>
    · rintro rfl; exact absurd h (by decide)

theorem splitRange_cons_other {c : Char} (l : List Char)
    (h1 : c ≠ '-') (h2 : c ≠ '–') (h3 : c ≠ '.') (h4 : c ≠ 't') :
    splitRange (c :: l) = (splitRange l).map (fun p => (c :: p.1, p.2)) := by
  simp [splitRange, h1, h2, h3, h4]

theorem splitRange_append_digits (pre l : List Char)
    (hpre : ∀ c ∈ pre, isDigitChar c = true) :
    splitRange (pre ++ l) = (splitRange l).map (fun p => (pre ++ p.1, p.2)) := by
  induction pre with
  | nil => simp only [List.nil_append]; cases h : splitRange l <;> simp [h]
  | cons c pre ih =>
    obtain ⟨h1, h2, h3, h4, -⟩ := digit_not_special (hpre c (by simp))
    rw [List.cons_append, splitRange_cons_other _ h1 h2 h3 h4,
      ih (fun x hx => hpre x (by simp [hx]))]
    cases h : splitRange l <;> simp [h]

theorem splitRange_hyphen (r : List Char) : splitRange ('-' :: r) = some ([], r) := by
  simp [splitRange]

theorem splitRange_endash (r : List Char) : splitRange ('–' :: r) = some ([], r) := by
  simp [splitRange]

theorem splitRange_dots (r : List Char) : splitRange ('.' :: '.' :: r) = some ([], r) := by
  simp [splitRange]

theorem splitRange_to (r : List Char) : splitRange ('t' :: 'o' :: r) = some ([], r) := by
  simp [splitRange]


theorem digitCharOf_spec {d : Nat} (h : d < 10) :
    isDigitChar (digitCharOf d) = true ∧ digitVal (digitCharOf d) = d := by
  interval_cases d <;> exact ⟨by decide, by decide⟩

theorem natChars_digits (n : Nat) : ∀ c ∈ natChars n, isDigitChar c = true := by
  intro c hc
  unfold natChars at hc
  split at hc
  · simp at hc; subst hc; decide
  · rw [List.mem_reverse, List.mem_map] at hc
    obtain ⟨d, hd, rfl⟩ := hc
    exact (digitCharOf_spec (Nat.digits_lt_base (by norm_num) hd)).1

theorem natChars_ne_nil (n : Nat) : natChars n ≠ [] := by
  unfold natChars
  split
  · simp
  · simp [Nat.digits_ne_nil_iff_ne_zero]
    assumption

theorem foldl_decimal (L : List Nat) :
    L.reverse.foldl (fun m d => 10 * m + d) 0 = Nat.ofDigits 10 L := by
  induction L with
  | nil => rfl
  | cons d L ih =>
    rw [List.reverse_cons, List.foldl_append, ih, Nat.ofDigits_cons]
    simp
    ring

theorem foldl_natChars (n : Nat) :
    (natChars n).foldl (fun m c => 10 * m + digitVal c) 0 = n := by
  unfold natChars
  split
  · rename_i h
    subst h
    rfl
  · rw [← List.map_reverse, List.foldl_map]
    rw [List.foldl_ext (fun m c => 10 * m + digitVal (digitCharOf c)) (fun m d => 10 * m + d) 0
      (fun m d hd => by
        simp only []
        rw [(digitCharOf_spec (Nat.digits_lt_base (by norm_num)
          (List.mem_reverse.mp hd))).2])]
    rw [foldl_decimal, Nat.ofDigits_digits]

theorem parseNatChars_natChars (n : Nat) : parseNatChars (natChars n) = some n := by
  unfold parseNatChars
  rw [if_pos, foldl_natChars]
  simp only [Bool.and_eq_true, Bool.not_eq_true', List.isEmpty_eq_false, List.all_eq_true]
  exact ⟨natChars_ne_nil n, natChars_digits n⟩


theorem dropWhile_spaces_append (w rest : List Char)
    (hw : ∀ c ∈ w, isSpaceChar c = true) :
    (w ++ rest).dropWhile isSpaceChar = rest.dropWhile isSpaceChar := by
  induction w with
  | nil => rfl
  | cons c w ih =>
    rw [List.cons_append, List.dropWhile_cons, if_pos (hw c (by simp)),
      ih (fun x hx => hw x (by simp [hx]))]

theorem dropWhile_cons_false {c : Char} (l : List Char)
    (hc : isSpaceChar c = false) :
    (c :: l).dropWhile isSpaceChar = c :: l := by
  rw [List.dropWhile_cons, if_neg (by simp [hc])]

theorem trimChars_wrap (w1 w2 l : List Char)
    (hw1 : ∀ c ∈ w1, isSpaceChar c = true) (hw2 : ∀ c ∈ w2, isSpaceChar c = true)
    (hne : l ≠ [])
    (hh : ∀ c, l.head? = some c → isSpaceChar c = false)
    (hl : ∀ c, l.getLast? = some c → isSpaceChar c = false) :
    trimChars (w1 ++ l ++ w2) = l := by
  obtain ⟨c, t, rfl⟩ := List.exists_cons_of_ne_nil hne
  have hc : isSpaceChar c = false := hh c rfl
  unfold trimChars
  rw [List.append_assoc, dropWhile_spaces_append w1 _ hw1, List.cons_append,
    dropWhile_cons_false _ hc]
  rcases List.eq_nil_or_concat t with rfl | ⟨mid, d, rfl⟩
  · rw [List.nil_append, List.reverse_cons,
      dropWhile_spaces_append _ _ (fun x hx => hw2 x (List.mem_reverse.mp hx)),
      dropWhile_cons_false _ hc]
    rfl
  · have hd : isSpaceChar d = false := by
      refine hl d ?_
      rw [List.concat_eq_append, ← List.cons_append, List.getLast?_concat]
    rw [List.concat_eq_append,
      show (c :: (mid ++ [d] ++ w2)).reverse
          = w2.reverse ++ (d :: (mid.reverse ++ [c])) by simp,
      dropWhile_spaces_append _ _ (fun x hx => hw2 x (List.mem_reverse.mp hx)),
      dropWhile_cons_false _ hd]
    simp


theorem head?_nonspace_of_digits (l X : List Char)
    (hl : ∀ c ∈ l, isDigitChar c = true) (hne : l ≠ []) :
    ∀ c, (l ++ X).head? = some c → isSpaceChar c = false := by
  obtain ⟨c0, t, rfl⟩ := List.exists_cons_of_ne_nil hne
  intro c hc
  rw [List.cons_append, List.head?_cons, Option.some.injEq] at hc
  subst hc
  exact (digit_not_special (hl _ (by simp))).2.2.2.2

theorem getLast?_nonspace_of_digits (X l : List Char)
    (hl : ∀ c ∈ l, isDigitChar c = true) (hne : l ≠ []) :
    ∀ c, (X ++ l).getLast? = some c → isSpaceChar c = false := by
  rcases List.eq_nil_or_concat l with rfl | ⟨mid, d, rfl⟩
  · exact absurd rfl hne
  · intro c hc
    rw [List.concat_eq_append, ← List.append_assoc, List.getLast?_concat,
      Option.some.injEq] at hc
    subst hc
    exact (digit_not_special (hl _ (by simp))).2.2.2.2

theorem trimChars_pad (w1 w2 l : List Char)
    (hw1 : ∀ c ∈ w1, isSpaceChar c = true) (hw2 : ∀ c ∈ w2, isSpaceChar c = true)
    (hl : ∀ c ∈ l, isDigitChar c = true) (hne : l ≠ []) :
    trimChars (w1 ++ l ++ w2) = l := by
  refine trimChars_wrap w1 w2 l hw1 hw2 hne ?_ ?_
  · have h := head?_nonspace_of_digits l [] hl hne
    rw [List.append_nil] at h
    exact h
  · have h := getLast?_nonspace_of_digits [] l hl hne
    rw [List.nil_append] at h
    exact h

theorem trimChars_digits (l : List Char)
    (hl : ∀ c ∈ l, isDigitChar c = true) (hne : l ≠ []) :
    trimChars l = l := by
  have h := trimChars_pad [] [] l (by simp) (by simp) hl hne
  simpa using h

theorem trimChars_digits_rspace (l : List Char)
    (hl : ∀ c ∈ l, isDigitChar c = true) (hne : l ≠ []) :
    trimChars (l ++ [' ']) = l := by
  have h := trimChars_pad [] [' '] l (by simp)
    (by intro c hc; simp at hc; subst hc; rfl) hl hne
  simpa using h

theorem trimChars_digits_lspace (l : List Char)
    (hl : ∀ c ∈ l, isDigitChar c = true) (hne : l ≠ []) :
    trimChars (' ' :: l) = l := by
  have h := trimChars_pad [' '] [] l
    (by intro c hc; simp at hc; subst hc; rfl) (by simp) hl hne
  simpa using h


theorem parseBitRange_core (w1 w2 : List Char) (a b : Nat) (mid lp rp : List Char)
    (hw1 : ∀ c ∈ w1, isSpaceChar c = true) (hw2 : ∀ c ∈ w2, isSpaceChar c = true)
    (hmid_ne : mid ≠ [])
    (hh : ∀ c, mid.head? = some c → isSpaceChar c = false)
    (hlast : ∀ c, mid.getLast? = some c → isSpaceChar c = false)
    (hsplit : splitRange mid = some (lp, rp))
    (hl : parseNatChars (trimChars lp) = some a)
    (hr : parseNatChars (trimChars rp) = some b) :
    parseBitRange ⟨w1 ++ mid ++ w2⟩ = some ⟨a, b⟩ := by
  have htrim := trimChars_wrap w1 w2 mid hw1 hw2 hmid_ne hh hlast
  rw [List.append_assoc] at htrim
  unfold parseBitRange
  simp [htrim, hsplit, hl, hr]

theorem parseBitRange_sep_gen (a b : Nat) (w1 w2 sep : List Char)
    (hw1 : ∀ c ∈ w1, isSpaceChar c = true) (hw2 : ∀ c ∈ w2, isSpaceChar c = true)
    (hsep : splitRange (sep ++ natChars b) = some ([], natChars b)) :
    parseBitRange ⟨w1 ++ (natChars a ++ sep ++ natChars b) ++ w2⟩ = some ⟨a, b⟩ := by
  have hA := natChars_digits a
  have hB := natChars_digits b
  have hAne := natChars_ne_nil a
  have hBne := natChars_ne_nil b
  refine parseBitRange_core w1 w2 a b _ (natChars a) (natChars b) hw1 hw2
    ?_ ?_ ?_ ?_ ?_ ?_
  · intro h
    rw [List.append_eq_nil, List.append_eq_nil] at h
    exact hAne h.1.1
  · rw [List.append_assoc]
    exact head?_nonspace_of_digits (natChars a) _ hA hAne
  · exact getLast?_nonspace_of_digits (natChars a ++ sep) (natChars b) hB hBne
  · rw [List.append_assoc, splitRange_append_digits _ _ hA, hsep]
    simp
  · rw [trimChars_digits _ hA hAne]
    exact parseNatChars_natChars a
  · rw [trimChars_digits _ hB hBne]
    exact parseNatChars_natChars b

theorem parseBitRange_to_gen (a b : Nat) (w1 w2 : List Char)
    (hw1 : ∀ c ∈ w1, isSpaceChar c = true) (hw2 : ∀ c ∈ w2, isSpaceChar c = true) :
    parseBitRange ⟨w1 ++ (natChars a ++ [' ', 't', 'o', ' '] ++ natChars b) ++ w2⟩ = some ⟨a, b⟩ := by
  have hA := natChars_digits a
  have hB := natChars_digits b
  have hAne := natChars_ne_nil a
  have hBne := natChars_ne_nil b
  refine parseBitRange_core w1 w2 a b _ (natChars a ++ [' ']) (' ' :: natChars b) hw1 hw2
    ?_ ?_ ?_ ?_ ?_ ?_
  · intro h
    rw [List.append_eq_nil, List.append_eq_nil] at h
    exact hAne h.1.1
  · rw [List.append_assoc]
    exact head?_nonspace_of_digits (natChars a) _ hA hAne
  · exact getLast?_nonspace_of_digits (natChars a ++ [' ', 't', 'o', ' ']) (natChars b) hB hBne
  · rw [List.append_assoc, splitRange_append_digits _ _ hA,
      show ([' ', 't', 'o', ' '] : List Char) ++ natChars b
        = ' ' :: 't' :: 'o' :: (' ' :: natChars b) from rfl,
      splitRange_cons_other _ (by decide) (by decide) (by decide) (by decide),
      splitRange_to]
    simp
  · rw [trimChars_digits_rspace _ hA hAne]
    exact parseNatChars_natChars a
  · rw [trimChars_digits_lspace _ hB hBne]
    exact parseNatChars_natChars b

theorem parseBitRange_single_gen (n : Nat) (w1 w2 : List Char)
    (hw1 : ∀ c ∈ w1, isSpaceChar c = true) (hw2 : ∀ c ∈ w2, isSpaceChar c = true) :
    parseBitRange ⟨w1 ++ natChars n ++ w2⟩ = some ⟨n, n⟩ := by
  have htrim := trimChars_pad w1 w2 (natChars n) hw1 hw2 (natChars_digits n) (natChars_ne_nil n)
  have hsplit : splitRange (natChars n) = none := by
    rw [← List.append_nil (natChars n), splitRange_append_digits _ _ (natChars_digits n)]
    rfl
  rw [List.append_assoc] at htrim
  unfold parseBitRange
  simp [htrim, hsplit, parseNatChars_natChars]

/-- C2: bit-range parsing is total over its accepted grammar and
normalizing: for all naturals `a`, `b`, the decimal renderings joined by
a hyphen, an en-dash, a double dot, or a whitespace-delimited `to`, with
or without surrounding whitespace, all parse to `{start := a, stop := b}`;
a single-integer cell parses to the one-bit field `{n, n}`; in
particular `"6-15"`, `"6–15"`, `"6..15"` and `"6 to 15"` all yield
`{start := 6, stop := 15}`. -/
theorem bitrange_grammar_total (a b : Nat) (w1 w2 : List Char)
    (hw1 : ∀ c ∈ w1, c = ' ') (hw2 : ∀ c ∈ w2, c = ' ') :
    parseBitRange ⟨w1 ++ (natChars a ++ ['-'] ++ natChars b) ++ w2⟩ = some ⟨a, b⟩ ∧
    parseBitRange ⟨w1 ++ (natChars a ++ ['–'] ++ natChars b) ++ w2⟩ = some ⟨a, b⟩ ∧
    parseBitRange ⟨w1 ++ (natChars a ++ ['.', '.'] ++ natChars b) ++ w2⟩ = some ⟨a, b⟩ ∧
    parseBitRange ⟨w1 ++ (natChars a ++ [' ', 't', 'o', ' '] ++ natChars b) ++ w2⟩ = some ⟨a, b⟩ ∧
    parseBitRange ⟨w1 ++ natChars a ++ w2⟩ = some ⟨a, a⟩ ∧
    parseBitRange "6-15" = some ⟨6, 15⟩ ∧
    parseBitRange "6–15" = some ⟨6, 15⟩ ∧
    parseBitRange "6..15" = some ⟨6, 15⟩ ∧
    parseBitRange "6 to 15" = some ⟨6, 15⟩ := by
  have hs1 : ∀ c ∈ w1, isSpaceChar c = true := fun c hc => by rw [hw1 c hc]; rfl
  have hs2 : ∀ c ∈ w2, isSpaceChar c = true := fun c hc => by rw [hw2 c hc]; rfl
  refine ⟨?_, ?_, ?_, parseBitRange_to_gen a b w1 w2 hs1 hs2,
    parseBitRange_single_gen a w1 w2 hs1 hs2, by decide, by decide, by decide, by decide⟩
  · exact parseBitRange_sep_gen a b w1 w2 ['-'] hs1 hs2 (splitRange_hyphen _)
  · exact parseBitRange_sep_gen a b w1 w2 ['–'] hs1 hs2 (splitRange_endash _)
  · exact parseBitRange_sep_gen a b w1 w2 ['.', '.'] hs1 hs2 (splitRange_dots _)


/-- Witness for C2 at `a = 6`, `b = 15`, with a leading space. -/
theorem bitrange_grammar_total_witness :
    parseBitRange ⟨[' '] ++ (natChars 6 ++ ['-'] ++ natChars 15) ++ []⟩ = some ⟨6, 15⟩ :=
  (bitrange_grammar_total 6 15 [' '] [] (by decide) (by decide)).1


/-! ### Theorems for C3 (Extraction Arbiter selection) -/

/-- C3: Extraction Arbiter selection is a deterministic function of the
two candidates: the candidate with the strictly higher confidence score
is selected; when the two scores are exactly equal, the candidate with
more non-empty cells is selected; and selection depends on nothing but
the two candidates (repeated runs yield the same winner). -/
theorem arbiter_selection (a b : TableCandidate) :
    (b.score < a.score → selectCandidate a b = a) ∧
    (a.score < b.score → selectCandidate a b = b) ∧
    (a.score = b.score → nonEmptyCells b < nonEmptyCells a →
      selectCandidate a b = a) ∧
    (a.score = b.score → nonEmptyCells a < nonEmptyCells b →
      selectCandidate a b = b) ∧
    (∀ a2 b2 : TableCandidate, a2 = a → b2 = b →
      selectCandidate a2 b2 = selectCandidate a b) := by
  refine ⟨fun h => ?_, fun h => ?_, fun hs hc => ?_, fun hs hc => ?_,
    fun a2 b2 h2 h3 => by rw [h2, h3]⟩
  · rw [selectCandidate, if_pos h]
  · rw [selectCandidate, if_neg (lt_asymm h), if_pos h]
  · rw [selectCandidate, if_neg (by rw [hs]; exact lt_irrefl _),
      if_neg (by rw [hs]; exact lt_irrefl _), if_pos hc]
  · rw [selectCandidate, if_neg (by rw [hs]; exact lt_irrefl _),
      if_neg (by rw [hs]; exact lt_irrefl _), if_neg (lt_asymm hc)]

/-- Witness for C3: a higher-scoring candidate wins; on a score tie the
denser candidate wins. -/
theorem arbiter_selection_witness :
    selectCandidate ⟨"camelot", [["Field", "Bits"]], 1⟩ ⟨"pdfplumber", [], 0⟩
        = ⟨"camelot", [["Field", "Bits"]], 1⟩ ∧
    selectCandidate ⟨"camelot", [[""]], 1⟩ ⟨"pdfplumber", [["x"]], 1⟩
        = ⟨"pdfplumber", [["x"]], 1⟩ :=
  ⟨(arbiter_selection ⟨"camelot", [["Field", "Bits"]], 1⟩ ⟨"pdfplumber", [], 0⟩).1
      (by decide),
   (arbiter_selection ⟨"camelot", [[""]], 1⟩ ⟨"pdfplumber", [["x"]], 1⟩).2.2.2.1
      rfl (by decide)⟩


/-! ### Theorems for C7 (Validation Engine frame) -/

/-- C7: the Validation Engine leaves the SemanticModel unchanged (the
model component of its result is the input model) and every independent
checker's findings appear in the issue list, regardless of what the
other checkers found. -/
theorem validate_pure_all_checks (m : SemanticModel) :
    (validate m).1 = m ∧
    (∀ i ∈ structuralIssues m, i ∈ (validate m).2) ∧
    (∀ i ∈ dictIssues m, i ∈ (validate m).2) ∧
    (∀ i ∈ unitIssues m, i ∈ (validate m).2) := by
  refine ⟨rfl, fun i hi => ?_, fun i hi => ?_, fun i hi => ?_⟩ <;>
    simp [validate, validateModel, List.mem_append, hi]

/-- Witness for C7: on a model with an overlap error, the structural
finding is in the validator's issue list and the model is returned
unchanged. -/
theorem validate_pure_all_checks_witness :
    (validate modelAB).1 = modelAB ∧
    overlapIssue "J1" fieldA fieldB ∈ (validate modelAB).2 ∧
    (unitIssues modelU).get ⟨0, by decide⟩ ∈ (validate modelU).2 :=
  ⟨(validate_pure_all_checks modelAB).1,
   (validate_pure_all_checks modelAB).2.1 (overlapIssue "J1" fieldA fieldB)
     (by decide),
   (validate_pure_all_checks modelU).2.2.2 ((unitIssues modelU).get ⟨0, by decide⟩)
     (List.get_mem _ _ _)⟩


/-! ### Theorems for C1 (structural check) -/

/-- Every overlapping ordered pair of a field list yields its error
issue in `overlapIssues`. -/
theorem overlapIssue_mem (path : String) (f g : FieldRecord)
    (l : List FieldRecord) (h : [f, g].Sublist l)
    (hov : rangesOverlap f g = true) :
    overlapIssue path f g ∈ overlapIssues path l := by
  induction l with
  | nil => exact absurd (List.sublist_nil.mp h) (by simp)
  | cons x l ih =>
    rw [overlapIssues]
    cases h with
    | cons _ h2 => exact List.mem_append_right _ (ih h2)
    | cons₂ _ h2 =>
      refine List.mem_append_left _ (List.mem_map.mpr ⟨g, ?_, rfl⟩)
      exact List.mem_filter.mpr ⟨h2.subset (by simp), hov⟩

/-- C1: the structural check reports every pair of fields with
overlapping inclusive bit-ranges as an error-severity issue naming both
offending fields; every under-coverage (unused bits) finding is a
warning, not an error; and for the segment holding exactly the two rows
0-7 and 5-10 the error-severity issues are exactly the one overlap
issue, which cites both field names. -/
theorem structural_overlap_check :
    (∀ (path : String) (seg : Segment) (f g : FieldRecord),
      [f, g].Sublist seg.fields → rangesOverlap f g = true →
      ∃ i ∈ checkStructural path seg, i.severity = Severity.error ∧
        f.name ∈ i.refs ∧ g.name ∈ i.refs) ∧
    (∀ (path : String) (seg : Segment),
      ∀ i ∈ coverageIssues path seg, i.severity = Severity.warning) ∧
    ((checkStructural "messages[0].segments[0]" segAB).filter
        (fun i => i.severity == Severity.error)
      = [overlapIssue "messages[0].segments[0]" fieldA fieldB]) ∧
    fieldA.name ∈ (overlapIssue "messages[0].segments[0]" fieldA fieldB).refs ∧
    fieldB.name ∈ (overlapIssue "messages[0].segments[0]" fieldA fieldB).refs := by
  refine ⟨fun path seg f g hsub hov => ?_, fun path seg i hi => ?_,
    by decide, by decide, by decide⟩
  · refine ⟨overlapIssue path f g, ?_, rfl, by simp [overlapIssue], by simp [overlapIssue]⟩
    rw [checkStructural]
    exact List.mem_append_left _
      (List.mem_append_left _ (overlapIssue_mem path f g seg.fields hsub hov))
  · unfold coverageIssues at hi
    split at hi
    · exact absurd hi (by simp)
    · rw [List.mem_singleton] at hi
      subst hi
      rfl

/-- Witness for C1: the general overlap clause applied to the concrete
two-row segment of scenario 2. -/
theorem structural_overlap_check_witness :
    ∃ i ∈ checkStructural "p" segAB, i.severity = Severity.error ∧
      fieldA.name ∈ i.refs ∧ fieldB.name ∈ i.refs :=
  structural_overlap_check.1 "p" segAB fieldA fieldB
    (List.Sublist.refl _) (by decide)


/-! ### Theorems for C8 (serialization round-trip) -/

/-- A pointwise-invertible serializer round-trips through `parseList`. -/
theorem parseList_map_roundtrip {α : Type} (ser : α → JVal) (par : JVal → Option α)
    (h : ∀ x, par (ser x) = some x) (xs : List α) :
    parseList par (xs.map ser) = some xs := by
  induction xs with
  | nil => rfl
  | cons x xs ih => simp [parseList, h, ih]

/-- Field-level round-trip. -/
theorem parseField_serializeField (f : FieldRecord) :
    parseField (serializeField f) = some f := by
  obtain ⟨n, ⟨s, e⟩, ev, u, d, c⟩ := f
  cases u <;> cases ev <;> rfl

/-- Segment-level round-trip. -/
theorem parseSegment_serializeSegment (sg : Segment) :
    parseSegment (serializeSegment sg) = some sg := by
  obtain ⟨t, L, fs⟩ := sg
  simp [serializeSegment, parseSegment,
    parseList_map_roundtrip serializeField parseField parseField_serializeField]

/-- Message-level round-trip. -/
theorem parseMessage_serializeMessage (msg : Message) :
    parseMessage (serializeMessage msg) = some msg := by
  obtain ⟨L, sgs⟩ := msg
  simp [serializeMessage, parseMessage,
    parseList_map_roundtrip serializeSegment parseSegment parseSegment_serializeSegment]

/-- Dictionary-entry round-trip. -/
theorem parseDictEntry_serializeDictEntry (e : DictionaryEntry) :
    parseDictEntry (serializeDictEntry e) = some e := by
  obtain ⟨a, b, c, n, p⟩ := e
  cases p with
  | none => rfl
  | some q => obtain ⟨x, y, z⟩ := q; rfl

/-- Enum-definition round-trip. -/
theorem parseEnumDef_serializeEnumDef (e : EnumDefinition) :
    parseEnumDef (serializeEnumDef e) = some e := by
  obtain ⟨n, vs⟩ := e
  simp [serializeEnumDef, parseEnumDef,
    parseList_map_roundtrip JVal.str parseStr (fun s => rfl)]

/-- Unit-definition round-trip. -/
theorem parseUnitDef_serializeUnitDef (u : UnitDefinition) :
    parseUnitDef (serializeUnitDef u) = some u := rfl

/-- C8: serialization round-trip — for every SemanticModel, serializing
it to the exposed format and re-parsing yields a structurally identical
model: the same messages, segments and fields in the same order. -/
theorem sim_roundtrip (m : SemanticModel) :
    parseModel (serializeModel m) = some m := by
  obtain ⟨sd, ed, tu, ms, ds, es, us⟩ := m
  cases tu <;>
    simp [serializeModel, parseModel, transportUnitToStr, strToTransportUnit,
      parseList_map_roundtrip serializeMessage parseMessage parseMessage_serializeMessage,
      parseList_map_roundtrip serializeDictEntry parseDictEntry parseDictEntry_serializeDictEntry,
      parseList_map_roundtrip serializeEnumDef parseEnumDef parseEnumDef_serializeEnumDef,
      parseList_map_roundtrip serializeUnitDef parseUnitDef parseUnitDef_serializeUnitDef]


/-! ### Theorems for C4 (serialized SIM field names) -/

/-- C4 counterexample: the serialized SIMs documented in the repository
(and consumed by the frontend via `sim.j_messages` / `sim.dfi_dui_di`)
do not expose top-level `messages` or `dictionary` collections; the
6016 document also lacks `transport_unit`.  This refutes the claim that
every serialized SemanticModel has exactly the top-level fields
`standard`, `edition`, `transport_unit`, `messages[]`, `dictionary`,
`enums`, `units`. -/
theorem serialized_sim_keys_counterexample :
    topLevelKeys pdfGuideSim
        = ["standard", "edition", "j_messages", "dfi_dui_di", "enums", "units"] ∧
    "messages" ∉ topLevelKeys pdfGuideSim ∧
    "dictionary" ∉ topLevelKeys pdfGuideSim ∧
    "transport_unit" ∉ topLevelKeys pdfGuideSim ∧
    "messages" ∉ topLevelKeys mqttGuideSim ∧
    "dictionary" ∉ topLevelKeys mqttGuideSim := by decide

/-- C4 amended: the 6016 serialized SIM's stable top-level fields are
`standard`, `edition`, `j_messages[]` (each message with `label`,
`title`, `words[]`; each word with `type`, `word_idx`, `bitlen`,
`fields[]`; each field with `name`, `bits`, `map`), `dfi_dui_di`,
`enums`, `units`; the MQTT serialized SIM's are `standard`, `edition`,
`transport_unit`, `enums`, `spec_messages[]` (each message with `label`
and `segments[]`, each segment with `type` and `fields[]`). -/
theorem serialized_sim_keys_amended :
    topLevelKeys pdfGuideSim
        = ["standard", "edition", "j_messages", "dfi_dui_di", "enums", "units"] ∧
    topLevelKeys pdfGuideMessage = ["label", "title", "words"] ∧
    topLevelKeys pdfGuideWord = ["type", "word_idx", "bitlen", "fields"] ∧
    topLevelKeys pdfGuideField = ["name", "bits", "map"] ∧
    topLevelKeys mqttGuideSim
        = ["standard", "edition", "transport_unit", "enums", "spec_messages"] ∧
    topLevelKeys mqttGuideMessage = ["label", "segments"] := by decide


/-! ### Theorems for C5 (graceful pipeline entry point) -/

/-- C5: for every input document the build entry point returns a
SemanticModel together with an issue report and never aborts for
document-quality problems; a document from which zero fields are
extractable still yields an empty-but-valid SemanticModel plus a
coverage-gap report; only null input produces a hard failure. -/
theorem build_graceful (doc : Document) (threshold : ℚ) :
    (∃ m issues, build (some doc) threshold = Except.ok (m, issues)) ∧
    (build none threshold = Except.error "programmer error: null document") ∧
    (∃ pr, build (some docNoTables) 1 = Except.ok pr ∧
      allModelFields pr.1 = [] ∧
      ∃ i ∈ pr.2, i.ruleId = "coverage-gap" ∧ i.severity = Severity.warning) := by
  refine ⟨⟨(buildFromDoc doc threshold).1, (buildFromDoc doc threshold).2, rfl⟩,
    rfl, ⟨buildFromDoc docNoTables 1, rfl, by decide, ?_⟩⟩
  exact ⟨coverageGapIssue, by decide, rfl, rfl⟩


/-! ### Theorems for C6 (Section Classifier disjointness) -/

/-- `buildSections` invariant: with strictly increasing in-range
boundary indices, every produced section starts no earlier than
`start`, is a non-empty page interval, and consecutive sections are
strictly ordered. -/
theorem buildSections_sound (n : Nat) (rest : List (Nat × SectionKind × String)) :
    ∀ (start runEnd : Nat) (k : SectionKind) (L : String),
      start ≤ runEnd → runEnd < n →
      List.Pairwise (fun x y => x < y) (runEnd :: rest.map (fun x => x.1)) →
      (∀ x ∈ rest, x.1 < n) →
      (∀ s ∈ buildSections n start runEnd k L rest,
        start ≤ s.firstPage ∧ s.firstPage ≤ s.lastPage) ∧
      List.Pairwise (fun s t => s.lastPage < t.firstPage)
        (buildSections n start runEnd k L rest) := by
  induction rest with
  | nil =>
    intro start runEnd k L hsr hn hsorted hbound
    constructor
    · intro s hs
      rw [buildSections, List.mem_singleton] at hs
      subst hs
      exact ⟨le_refl start, show start ≤ n - 1 by omega⟩
    · rw [buildSections]
      exact List.pairwise_singleton _ _
  | cons b rest ih =>
    intro start runEnd k L hsr hn hsorted hbound
    obtain ⟨j, k2, M⟩ := b
    simp only [List.map_cons] at hsorted
    have hj : runEnd < j := (List.pairwise_cons.mp hsorted).1 j (by simp)
    have hjn : j < n := hbound (j, k2, M) (by simp)
    have hsorted2 := (List.pairwise_cons.mp hsorted).2
    rw [buildSections]
    split
    · exact ih start j k L (by omega) hjn hsorted2
        (fun x hx => hbound x (by simp [hx]))
    · have hrec := ih j j k2 M (le_refl j) hjn hsorted2
        (fun x hx => hbound x (by simp [hx]))
      constructor
      · intro s hs
        rw [List.mem_cons] at hs
        rcases hs with rfl | hs
        · exact ⟨le_refl start, show start ≤ j - 1 by omega⟩
        · have h1 := (hrec.1 s hs).1
          exact ⟨by omega, (hrec.1 s hs).2⟩
      · rw [List.pairwise_cons]
        refine ⟨fun t ht => ?_, hrec.2⟩
        have hjt := (hrec.1 t ht).1
        show j - 1 < t.firstPage
        omega

/-- The first components of page boundaries are a sublist of the page
indices. -/
theorem boundaries_fst_sublist (recognize : String → Option (SectionKind × String))
    (l : List (Nat × String)) :
    ((l.filterMap (fun p => (recognize p.2).map (fun r => (p.1, r)))).map
      Prod.fst).Sublist (l.map Prod.fst) := by
  induction l with
  | nil => simp
  | cons p l ih =>
    rw [List.filterMap_cons]
    cases hr : recognize p.2 with
    | none =>
      simp only [Option.map_none']
      exact ih.cons p.1
    | some r =>
      simp only [Option.map_some', List.map_cons]
      exact ih.cons₂ p.1

/-- Page boundaries are strictly increasing page indices below the page
count. -/
theorem pageBoundaries_sorted_bound
    (recognize : String → Option (SectionKind × String)) (pages : List String) :
    List.Pairwise (fun x y => x < y)
      ((pageBoundaries recognize pages).map (fun x => x.1)) ∧
    (∀ x ∈ pageBoundaries recognize pages, x.1 < pages.length) := by
  have hsub := boundaries_fst_sublist recognize pages.enum
  rw [List.enum_map_fst] at hsub
  constructor
  · exact List.Pairwise.sublist hsub (List.pairwise_lt_range _)
  · intro x hx
    have hm : x.1 ∈ (pageBoundaries recognize pages).map Prod.fst :=
      List.mem_map_of_mem Prod.fst hx
    exact List.mem_range.mp (hsub.subset hm)

/-- C6: the Section Classifier's sections have pairwise disjoint page
ranges — no page belongs to two distinct sections — and a document in
which no page matches any recognition rule yields no sections at all
(unassigned pages are not an error). -/
theorem classifier_sections_disjoint
    (recognize : String → Option (SectionKind × String)) (pages : List String) :
    (∀ (i j : Fin (classifySections recognize pages).length), i.1 ≠ j.1 →
      ∀ p : Nat,
        ¬(pageInSection ((classifySections recognize pages).get i) p ∧
          pageInSection ((classifySections recognize pages).get j) p)) ∧
    ((∀ h ∈ pages, recognize h = none) →
      classifySections recognize pages = []) := by
  have key : (∀ s ∈ classifySections recognize pages, s.firstPage ≤ s.lastPage) ∧
      List.Pairwise (fun s t => s.lastPage < t.firstPage)
        (classifySections recognize pages) := by
    unfold classifySections
    cases hb : pageBoundaries recognize pages with
    | nil => simp
    | cons b rest =>
      obtain ⟨i, k, L⟩ := b
      have hsb := pageBoundaries_sorted_bound recognize pages
      rw [hb] at hsb
      have hmain := buildSections_sound pages.length rest i i k L (le_refl i)
        (hsb.2 (i, k, L) (by simp)) (by simpa using hsb.1)
        (fun x hx => hsb.2 x (by simp [hx]))
      exact ⟨fun s hs => (hmain.1 s hs).2, hmain.2⟩
  constructor
  · intro i j hij p hp
    obtain ⟨hpi, hpj⟩ := hp
    unfold pageInSection at hpi hpj
    rcases Nat.lt_trichotomy i.1 j.1 with h | h | h
    · have hlt := List.pairwise_iff_get.mp key.2 i j h
      omega
    · exact hij h
    · have hlt := List.pairwise_iff_get.mp key.2 j i h
      omega
  · intro hnone
    unfold classifySections
    have hb : pageBoundaries recognize pages = [] := by
      unfold pageBoundaries
      rw [List.filterMap_eq_nil_iff]
      intro p hp
      rw [List.enum_eq_zip_range] at hp
      rw [hnone p.2 (List.of_mem_zip hp).2]
      rfl
    rw [hb]

/-- Witness for C6 on a concrete three-page document: pages "J3.2",
"continued", "J10.2" yield two sections, and page 1 cannot lie in both;
a document whose sole page matches no rule yields no sections. -/
theorem classifier_sections_disjoint_witness :
    (¬(pageInSection
          ((classifySections defaultRecognize
            ["J3.2", "continued", "J10.2"]).get ⟨0, by decide⟩) 1 ∧
        pageInSection
          ((classifySections defaultRecognize
            ["J3.2", "continued", "J10.2"]).get ⟨1, by decide⟩) 1)) ∧
    classifySections (fun _ => none) ["introduction"] = [] :=
  ⟨(classifier_sections_disjoint defaultRecognize
      ["J3.2", "continued", "J10.2"]).1 ⟨0, by decide⟩ ⟨1, by decide⟩
      (by decide) 1,
   (classifier_sections_disjoint (fun _ => none) ["introduction"]).2
      (fun h _ => rfl)⟩

end Spec2Proof
